import Mathlib

/-!
Verification of the index-permutation layer of a Cascade-style error
reconciliation module (src/bb84/cascade/shuffle.py).

The Shuffle class keeps a dense mapping from shuffle indexes to key
indexes (a dict with keys 0..n-1, represented here as the list of its
values in key order), delegates bit reads and writes to an external Key,
and optionally randomises the mapping at construction via an isolated
random source.  Failed asserts in the Python code are represented by the
error taxonomy of the design document: index errors and argument errors.
-/

namespace BB84

/-- Error taxonomy of the design document: a failed index assert is an
index-out-of-range error, a failed argument assert is an invalid-argument
error. -/
inductive Err
  | indexOutOfRange
  | invalidArgument
deriving DecidableEq, Repr

/-- Modelled from the spec: the external Key collaborator (bb84/cascade/key.py
is not under src/).  A fixed-length ordered sequence of bits, each bit
addressable by a zero-based position; the size is immutable. -/
structure Key where
  bits : List Bool
deriving DecidableEq, Repr

/-- Modelled from the spec: key.size, a non-negative integer fixed for the
lifetime of the key. -/
def Key.size (k : Key) : Nat := k.bits.length

/-- Modelled from the spec: key.get_bit(position) returns the stored bit as 0
or 1, failing when the position is out of range. -/
def Key.get_bit (k : Key) (pos : Nat) : Except Err Nat :=
  if pos < k.size then .ok (cond (k.bits.getD pos false) 1 0)
  else .error .indexOutOfRange

/-- Modelled from the spec: key.set_bit(position, value) stores the bit,
failing when the position is out of range or the value is not 0 or 1. -/
def Key.set_bit (k : Key) (pos : Nat) (value : Nat) : Except Err Key :=
  if pos < k.size then
    if value = 0 ∨ value = 1 then .ok ⟨k.bits.set pos (value == 1)⟩
    else .error .invalidArgument
  else .error .indexOutOfRange

/-- Modelled from the spec: key.flip_bit(position) inverts the stored bit,
failing when the position is out of range. -/
def Key.flip_bit (k : Key) (pos : Nat) : Except Err Key :=
  if pos < k.size then .ok ⟨k.bits.set pos (!k.bits.getD pos false)⟩
  else .error .indexOutOfRange

/-- Modelled from the spec: the process-wide isolated random source used only
by the shuffle module.  The Python generator (random.Random) is external to
the repository; the spec requires only that it is deterministic once seeded,
so it is modelled as an explicit deterministic state machine. -/
structure Rng where
  state : Nat
deriving DecidableEq, Repr

/-- One draw from the isolated random source: a value below the given bound
together with the advanced generator state.  This stands in for
int(random() * bound) with random() in [0, 1); a linear congruential step
plays the role of the external generator, as only determinism matters. -/
def Rng.next (r : Rng) (bound : Nat) : Nat × Rng :=
  let s := (r.state * 1103515245 + 12345) % 4294967296
  (s % bound, ⟨s⟩)

/-- The simultaneous assignment x[i], x[j] = x[j], x[i] performed by the
standard-library shuffle on the dense mapping. -/
def swapEntries (l : List Nat) (i j : Nat) : List Nat :=
  (l.set i (l.getD j 0)).set j (l.getD i 0)

/-- The loop of the standard-library shuffle with a custom random callable,
as invoked at shuffle.py line 37: for i in reversed(range(1, n)), draw
j = int(random() * (i + 1)) and swap entries i and j.  The first argument is
the current loop index; index 0 ends the loop. -/
def shuffleGo : Nat → List Nat → Rng → List Nat × Rng
  | 0, l, r => (l, r)
  | i + 1, l, r =>
    let d := r.next (i + 2)
    shuffleGo i (swapEntries l (i + 1) d.1) d.2

/-- Embeds random.shuffle(mapping, Shuffle._random.random) from
Shuffle.__init__: shuffle the dense mapping, threading the isolated random
source. -/
def randomShuffle (l : List Nat) (r : Rng) : List Nat × Rng :=
  shuffleGo (l.length - 1) l r

/-- Embeds the Shuffle object state: the referenced key and the dense
shuffle-index-to-key-index mapping (the dict with keys 0..size-1, stored as
the list of its values in key order). -/
structure Shuffle where
  key : Key
  shuffle_index_to_key_index : List Nat
deriving DecidableEq, Repr

/-- Embeds Shuffle.SHUFFLE_NONE: do not shuffle the bits in the key. -/
def Shuffle.SHUFFLE_NONE : Int := 0

/-- Embeds Shuffle.SHUFFLE_RANDOM: randomly shuffle the bits in the key. -/
def Shuffle.SHUFFLE_RANDOM : Int := 1

/-- Embeds Shuffle.set_random_seed: replace the isolated random source by a
fresh generator initialised from the given seed. -/
def Shuffle.set_random_seed (seed : Int) : Rng :=
  ⟨(seed % 4294967296).toNat⟩

/-- Embeds Shuffle.__init__: validate the key and the algorithm, build the
identity mapping over [0, key.size), and when the algorithm is SHUFFLE_RANDOM
shuffle the mapping with the isolated random source.  The key argument is an
Option so that a non-Key argument (a failing isinstance assert) is
representable; a failed validation assert is an invalid-argument error.  The
result carries the advanced random source. -/
def Shuffle.create (key : Option Key) (algorithm : Int) (rng : Rng) :
    Except Err (Shuffle × Rng) :=
  match key with
  | none => .error .invalidArgument
  | some k =>
    if algorithm = Shuffle.SHUFFLE_NONE ∨ algorithm = Shuffle.SHUFFLE_RANDOM then
      if algorithm = Shuffle.SHUFFLE_RANDOM then
        let m := randomShuffle (List.range k.size) rng
        .ok (⟨k, m.1⟩, m.2)
      else
        .ok (⟨k, List.range k.size⟩, rng)
    else .error .invalidArgument

/-- Embeds the size property: the size of the underlying key in bits. -/
def Shuffle.size (s : Shuffle) : Nat := s.key.size

/-- The membership test index in self._shuffle_index_to_key_index: the dict
keys are exactly 0..n-1 where n is the number of mapping entries. -/
def Shuffle.indexInMapping (s : Shuffle) (index : Int) : Prop :=
  0 ≤ index ∧ index.toNat < s.shuffle_index_to_key_index.length

instance (s : Shuffle) (index : Int) : Decidable (s.indexInMapping index) :=
  inferInstanceAs (Decidable (_ ∧ _))

/-- Embeds Shuffle.get_bit: check the shuffle index against the mapping, then
read the key bit at the mapped key index. -/
def Shuffle.get_bit (s : Shuffle) (index : Int) : Except Err Nat :=
  if s.indexInMapping index then
    s.key.get_bit (s.shuffle_index_to_key_index.getD index.toNat 0)
  else .error .indexOutOfRange

/-- Embeds Shuffle.set_bit: check the shuffle index against the mapping and
the value against {0, 1}, then write the key bit at the mapped key index.
The updated view (holding the updated key) is returned. -/
def Shuffle.set_bit (s : Shuffle) (index : Int) (value : Int) :
    Except Err Shuffle :=
  if s.indexInMapping index then
    if value = 0 ∨ value = 1 then
      match s.key.set_bit (s.shuffle_index_to_key_index.getD index.toNat 0)
          value.toNat with
      | .ok k => .ok ⟨k, s.shuffle_index_to_key_index⟩
      | .error e => .error e
    else .error .invalidArgument
  else .error .indexOutOfRange

/-- Embeds Shuffle.flip_bit: check 0 <= index < self.size, then flip the key
bit at the mapped key index.  The updated view is returned. -/
def Shuffle.flip_bit (s : Shuffle) (index : Int) : Except Err Shuffle :=
  if 0 ≤ index ∧ index.toNat < s.size then
    match s.key.flip_bit (s.shuffle_index_to_key_index.getD index.toNat 0) with
    | .ok k => .ok ⟨k, s.shuffle_index_to_key_index⟩
    | .error e => .error e
  else .error .indexOutOfRange

/-- Embeds Shuffle.get_key_index: the key index a given shuffle index maps
to. -/
def Shuffle.get_key_index (s : Shuffle) (shuffle_index : Int) :
    Except Err Nat :=
  if s.indexInMapping shuffle_index then
    .ok (s.shuffle_index_to_key_index.getD shuffle_index.toNat 0)
  else .error .indexOutOfRange

/-- Embeds Shuffle.__str__: the concatenation of str(self.get_bit(i)) for i
in range(self.size); a failing get_bit propagates as an error. -/
def Shuffle.toStr (s : Shuffle) : Except Err String :=
  (List.range s.size).foldl
    (fun acc i =>
      match acc, s.get_bit (i : Int) with
      | .ok u, .ok b => .ok (u ++ Nat.repr b)
      | .ok _, .error e => .error e
      | .error e, _ => .error e)
    (.ok "")

instance exceptDecEq {ε α : Type} [DecidableEq ε] [DecidableEq α] :
    DecidableEq (Except ε α) := fun x y =>
  match x, y with
  | .ok a, .ok b =>
    if h : a = b then isTrue (by rw [h]) else isFalse (by simp [h])
  | .error e, .error f =>
    if h : e = f then isTrue (by rw [h]) else isFalse (by simp [h])
  | .ok _, .error _ => isFalse (by simp)
  | .error _, .ok _ => isFalse (by simp)

/-- The value of a successful result, with a default for errors. -/
def okD (e : Except Err Nat) (d : Nat) : Nat :=
  match e with
  | .ok v => v
  | .error _ => d

/-- The random-source state left behind by a sequence of SHUFFLE_NONE
constructions, each construction threading its returned source into the
next. -/
def rngAfterIdentityCreates : Rng → List Key → Rng
  | rng, [] => rng
  | rng, k :: ks =>
    rngAfterIdentityCreates
      (match Shuffle.create (some k) Shuffle.SHUFFLE_NONE rng with
       | .ok p => p.2
       | .error _ => rng) ks

/-! ### Helper lemmas about lists and the shuffle loop -/

theorem getD_of_lt {α : Type} (l : List α) (n : Nat) (d : α)
    (h : n < l.length) : l.getD n d = l[n] := by
  rw [List.getD_eq_getElem?_getD, List.getElem?_eq_getElem h, Option.getD_some]

theorem getD_set_ne {α : Type} (l : List α) (q : Nat) (x : α) (p : Nat) (d : α)
    (hne : p ≠ q) : (l.set q x).getD p d = l.getD p d := by
  rw [List.getD_eq_getElem?_getD, List.getD_eq_getElem?_getD,
    List.getElem?_set_ne (Ne.symm hne)]

theorem swapEntries_length (l : List Nat) (i j : Nat) :
    (swapEntries l i j).length = l.length := by
  simp [swapEntries]

theorem swapEntries_perm (l : List Nat) (i j : Nat) (hi : i < l.length)
    (hj : j < l.length) : (swapEntries l i j).Perm l := by
  have hgdi : l.getD i 0 = l[i] := getD_of_lt l i 0 hi
  have hgdj : l.getD j 0 = l[j] := getD_of_lt l j 0 hj
  rw [List.perm_iff_count]
  intro a
  unfold swapEntries
  rw [hgdi, hgdj]
  have hj2 : j < (l.set i l[j]).length := by simpa using hj
  rw [List.count_set _ _ _ _ hj2, List.count_set _ _ _ _ hi]
  have hset : (l.set i l[j])[j] = l[j] := by
    rw [List.getElem_set]
    split <;> simp_all
  rw [hset]
  have hxle : (if (l[i] == a) = true then 1 else 0) ≤ List.count a l := by
    split
    · rename_i hba
      have ha : l[i] = a := by simpa using hba
      exact List.count_pos_iff.mpr (ha ▸ List.getElem_mem hi)
    · exact Nat.zero_le _
  omega

theorem shuffleGo_perm (i : Nat) (l : List Nat) (r : Rng) (h : i < l.length) :
    (shuffleGo i l r).1.Perm l := by
  induction i generalizing l r with
  | zero => simp [shuffleGo]
  | succ n ih =>
    have hb : (r.next (n + 2)).1 < n + 2 := by
      unfold Rng.next
      exact Nat.mod_lt _ (by omega)
    have hswap : (swapEntries l (n + 1) (r.next (n + 2)).1).Perm l :=
      swapEntries_perm l (n + 1) (r.next (n + 2)).1 h (by omega)
    have hlen : n < (swapEntries l (n + 1) (r.next (n + 2)).1).length := by
      rw [swapEntries_length]; omega
    exact (ih _ _ hlen).trans hswap

theorem randomShuffle_perm (l : List Nat) (r : Rng) :
    (randomShuffle l r).1.Perm l := by
  unfold randomShuffle
  rcases Nat.eq_zero_or_pos l.length with h | h
  · have h0 : l.length - 1 = 0 := by omega
    rw [h0]
    simp [shuffleGo]
  · exact shuffleGo_perm _ l r (by omega)

/-! ### Facts about construction -/

theorem create_none_eq (k : Key) (rng : Rng) :
    Shuffle.create (some k) Shuffle.SHUFFLE_NONE rng =
      .ok (⟨k, List.range k.size⟩, rng) := rfl

theorem create_random_eq (k : Key) (rng : Rng) :
    Shuffle.create (some k) Shuffle.SHUFFLE_RANDOM rng =
      .ok (⟨k, (randomShuffle (List.range k.size) rng).1⟩,
        (randomShuffle (List.range k.size) rng).2) := rfl

theorem create_ok_cases (k : Key) (alg : Int) (rng : Rng) (s : Shuffle)
    (r' : Rng) (h : Shuffle.create (some k) alg rng = .ok (s, r')) :
    s.key = k ∧ s.shuffle_index_to_key_index.Perm (List.range k.size) := by
  simp only [Shuffle.create] at h
  split at h
  · split at h
    · simp only [Except.ok.injEq, Prod.mk.injEq] at h
      obtain ⟨h1, _⟩ := h
      subst h1
      exact ⟨rfl, randomShuffle_perm _ _⟩
    · simp only [Except.ok.injEq, Prod.mk.injEq] at h
      obtain ⟨h1, _⟩ := h
      subst h1
      exact ⟨rfl, List.Perm.refl _⟩
  · simp at h

theorem create_key_eq (k : Key) (alg : Int) (rng : Rng) (s : Shuffle)
    (r' : Rng) (h : Shuffle.create (some k) alg rng = .ok (s, r')) :
    s.key = k :=
  (create_ok_cases k alg rng s r' h).1

theorem create_mapping_perm (k : Key) (alg : Int) (rng : Rng) (s : Shuffle)
    (r' : Rng) (h : Shuffle.create (some k) alg rng = .ok (s, r')) :
    s.shuffle_index_to_key_index.Perm (List.range k.size) :=
  (create_ok_cases k alg rng s r' h).2

theorem create_mapping_length (k : Key) (alg : Int) (rng : Rng) (s : Shuffle)
    (r' : Rng) (h : Shuffle.create (some k) alg rng = .ok (s, r')) :
    s.shuffle_index_to_key_index.length = s.size := by
  have hp := create_mapping_perm k alg rng s r' h
  have hk := create_key_eq k alg rng s r' h
  have := hp.length_eq
  simp only [List.length_range] at this
  rw [this, Shuffle.size, hk]

theorem create_mapping_entry_lt (k : Key) (alg : Int) (rng : Rng) (s : Shuffle)
    (r' : Rng) (h : Shuffle.create (some k) alg rng = .ok (s, r'))
    (n : Nat) (hn : n < s.shuffle_index_to_key_index.length) :
    s.shuffle_index_to_key_index[n] < s.size := by
  have hp := create_mapping_perm k alg rng s r' h
  have hk := create_key_eq k alg rng s r' h
  have hmem : s.shuffle_index_to_key_index[n] ∈ List.range k.size :=
    hp.mem_iff.mp (List.getElem_mem hn)
  rw [List.mem_range] at hmem
  rw [Shuffle.size, hk]
  exact hmem

theorem create_random_mapping (k : Key) (rng : Rng) (s : Shuffle) (r' : Rng)
    (h : Shuffle.create (some k) Shuffle.SHUFFLE_RANDOM rng = .ok (s, r')) :
    s.shuffle_index_to_key_index = (randomShuffle (List.range k.size) rng).1 := by
  rw [create_random_eq] at h
  simp only [Except.ok.injEq, Prod.mk.injEq] at h
  obtain ⟨h1, _⟩ := h
  rw [← h1]

theorem rngAfterIdentityCreates_eq (rng : Rng) (ks : List Key) :
    rngAfterIdentityCreates rng ks = rng := by
  induction ks generalizing rng with
  | nil => rfl
  | cons k ks ih =>
    rw [rngAfterIdentityCreates, create_none_eq]
    exact ih rng

theorem set_getD_self {α : Type} (l : List α) (p : Nat) (d : α)
    (hp : p < l.length) : l.set p (l.getD p d) = l := by
  rw [getD_of_lt _ _ _ hp]
  apply List.ext_getElem
  · simp
  · intro n h1 h2
    rw [List.getElem_set]
    split
    · rename_i he
      subst he
      rfl
    · rfl

theorem get_bit_set_ne (bits : List Bool) (q : Nat) (x : Bool) (p : Nat)
    (hne : p ≠ q) : Key.get_bit ⟨bits.set q x⟩ p = Key.get_bit ⟨bits⟩ p := by
  unfold Key.get_bit
  have hsz : Key.size ⟨bits.set q x⟩ = Key.size ⟨bits⟩ := by
    simp [Key.size]
  rw [hsz, getD_set_ne bits q x p false hne]

theorem create_entry_getD_lt (k : Key) (alg : Int) (rng : Rng) (s : Shuffle)
    (r' : Rng) (h : Shuffle.create (some k) alg rng = .ok (s, r'))
    (i : Int) (_h0 : 0 ≤ i) (hi : i.toNat < s.size) :
    s.shuffle_index_to_key_index.getD i.toNat 0 < s.size := by
  have hlen := create_mapping_length k alg rng s r' h
  rw [getD_of_lt _ _ _ (by omega)]
  exact create_mapping_entry_lt k alg rng s r' h i.toNat (by omega)

/-! ### Claim theorems -/

/-- Claim C4: under the identity policy (SHUFFLE_NONE), every shuffle index
maps to itself: get_key_index returns the index unchanged for every index in
range. -/
theorem identity_key_position (k : Key) (rng : Rng) (s : Shuffle) (r' : Rng)
    (h : Shuffle.create (some k) Shuffle.SHUFFLE_NONE rng = .ok (s, r'))
    (i : Int) (h0 : 0 ≤ i) (hi : i.toNat < s.size) :
    s.get_key_index i = .ok i.toNat := by
  rw [create_none_eq] at h
  simp only [Except.ok.injEq, Prod.mk.injEq] at h
  obtain ⟨h1, _⟩ := h
  subst h1
  have hsz : i.toNat < k.size := hi
  unfold Shuffle.get_key_index
  rw [if_pos ⟨h0, by simpa using hsz⟩]
  rw [getD_of_lt _ _ _ (by simpa using hsz), List.getElem_range]

theorem identity_key_position_witness :
    Shuffle.get_key_index ⟨⟨[true, false]⟩, [0, 1]⟩ 1 = .ok 1 :=
  identity_key_position ⟨[true, false]⟩ ⟨0⟩ ⟨⟨[true, false]⟩, [0, 1]⟩ ⟨0⟩
    (by rfl) 1 (by decide) (by decide)

/-- Claim C1: for every constructed view (either policy) over a key of size
n, the list of key positions returned by get_key_index over all shuffle
positions is a permutation of 0..n-1, each key position occurring exactly
once. -/
theorem mapping_bijective (k : Key) (alg : Int) (rng : Rng) (s : Shuffle)
    (r' : Rng) (h : Shuffle.create (some k) alg rng = .ok (s, r')) :
    ((List.range s.size).map
        (fun (i : Nat) => okD (s.get_key_index (i : Int)) 0)).Perm
        (List.range s.size) ∧
      ∀ p, p < s.size →
        ((List.range s.size).map
          (fun (i : Nat) => okD (s.get_key_index (i : Int)) 0)).count p = 1 := by
  have hlen := create_mapping_length k alg rng s r' h
  have hperm := create_mapping_perm k alg rng s r' h
  have hkey := create_key_eq k alg rng s r' h
  have hrange : List.range k.size = List.range s.size := by
    rw [Shuffle.size, hkey]
  rw [hrange] at hperm
  have hmapeq :
      ((List.range s.size).map
          (fun (i : Nat) => okD (s.get_key_index (i : Int)) 0))
        = s.shuffle_index_to_key_index := by
    apply List.ext_getElem
    · simp [hlen]
    · intro n h1 h2
      simp only [List.getElem_map, List.getElem_range]
      have hn : n < s.size := by omega
      have hmem : Shuffle.indexInMapping s (n : Int) := by
        unfold Shuffle.indexInMapping
        omega
      unfold Shuffle.get_key_index
      rw [if_pos hmem]
      unfold okD
      have htn : ((n : Int)).toNat = n := by omega
      rw [htn, getD_of_lt _ _ _ (by omega)]
  constructor
  · rw [hmapeq]
    exact hperm
  · intro p hp
    rw [hmapeq, hperm.count_eq]
    exact List.count_eq_one_of_mem (List.nodup_range _) (List.mem_range.mpr hp)

theorem mapping_bijective_witness :
    ((List.range (5 : Nat)).map (fun (i : Nat) =>
        okD (Shuffle.get_key_index
          ⟨⟨[false, false, false, false, false]⟩, [2, 3, 1, 4, 0]⟩ (i : Int)) 0)).Perm
      (List.range 5) :=
  (mapping_bijective ⟨[false, false, false, false, false]⟩
    Shuffle.SHUFFLE_RANDOM (Shuffle.set_random_seed 42)
    ⟨⟨[false, false, false, false, false]⟩, [2, 3, 1, 4, 0]⟩
    ⟨3816158454⟩ (by rfl)).1

/-- Claim C8 counterexample: constructing over a perfectly valid key of size
1 with the unsupported policy value 2 fails with an invalid-argument error,
although the key is valid; so construction does not fail only for invalid
keys. -/
theorem create_unsupported_policy_fails :
    Shuffle.create (some ⟨[false]⟩) 2 ⟨0⟩ = .error .invalidArgument := by
  rfl

/-- Claim C8 (amended): construction succeeds for every valid key and every
supported policy value (SHUFFLE_NONE or SHUFFLE_RANDOM); it fails with an
invalid-argument error exactly when the key is invalid or the policy value is
unsupported. -/
theorem create_error_conditions (k : Key) (alg : Int) (rng : Rng) :
    (alg = Shuffle.SHUFFLE_NONE ∨ alg = Shuffle.SHUFFLE_RANDOM →
      ∃ s r', Shuffle.create (some k) alg rng = .ok (s, r')) ∧
    (¬(alg = Shuffle.SHUFFLE_NONE ∨ alg = Shuffle.SHUFFLE_RANDOM) →
      Shuffle.create (some k) alg rng = .error .invalidArgument) ∧
    Shuffle.create none alg rng = .error .invalidArgument := by
  refine ⟨?_, ?_, rfl⟩
  · intro halg
    rcases halg with h | h
    · subst h
      exact ⟨_, _, create_none_eq k rng⟩
    · subst h
      exact ⟨_, _, create_random_eq k rng⟩
  · intro halg
    show (if alg = Shuffle.SHUFFLE_NONE ∨ alg = Shuffle.SHUFFLE_RANDOM then
        if alg = Shuffle.SHUFFLE_RANDOM then
          let m := randomShuffle (List.range k.size) rng
          Except.ok ((⟨k, m.1⟩ : Shuffle), m.2)
        else Except.ok ((⟨k, List.range k.size⟩ : Shuffle), rng)
      else Except.error Err.invalidArgument) = Except.error Err.invalidArgument
    rw [if_neg halg]

theorem create_error_conditions_witness :
    Shuffle.create (some ⟨[]⟩) 3 ⟨0⟩ = .error .invalidArgument :=
  (create_error_conditions ⟨[]⟩ 3 ⟨0⟩).2.1 (by decide)

/-- Claim C9: for the key [1,0,1,1], the identity view renders as the string
of its bits in shuffle order, flipping shuffle position 0 renders the first
bit flipped, and the underlying key bit at position 0 becomes 0. -/
theorem concrete_identity_scenario :
    ∃ s s' r,
      Shuffle.create (some ⟨[true, false, true, true]⟩)
          Shuffle.SHUFFLE_NONE ⟨0⟩ = .ok (s, r) ∧
      s.toStr = .ok "1011" ∧
      s.flip_bit 0 = .ok s' ∧
      s'.toStr = .ok "0011" ∧
      s'.key.get_bit 0 = .ok 0 := by
  refine ⟨⟨⟨[true, false, true, true]⟩, [0, 1, 2, 3]⟩,
    ⟨⟨[false, false, true, true]⟩, [0, 1, 2, 3]⟩, ⟨0⟩, ?_, ?_, ?_, ?_, ?_⟩
  · rfl
  · rfl
  · rfl
  · rfl
  · rfl

/-- Claim C10: a SHUFFLE_NONE construction never draws from the shared random
source: after seeding, a RANDOM construction preceded by any number of
identity constructions produces exactly the view produced with no identity
constructions in between. -/
theorem identity_construction_draws_nothing (seed : Int) (ks : List Key)
    (k : Key) :
    Shuffle.create (some k) Shuffle.SHUFFLE_RANDOM
        (rngAfterIdentityCreates (Shuffle.set_random_seed seed) ks) =
      Shuffle.create (some k) Shuffle.SHUFFLE_RANDOM
        (Shuffle.set_random_seed seed) := by
  rw [rngAfterIdentityCreates_eq]

/-- Claim C3: seeding the isolated random source with the same value
immediately before each of two RANDOM constructions over keys of equal size
yields views whose shuffle-to-key mappings agree at every position. -/
theorem random_reproducibility (seed : Int) (k1 k2 : Key)
    (hsz : k1.size = k2.size) (s1 s2 : Shuffle) (r1 r2 : Rng)
    (h1 : Shuffle.create (some k1) Shuffle.SHUFFLE_RANDOM
      (Shuffle.set_random_seed seed) = .ok (s1, r1))
    (h2 : Shuffle.create (some k2) Shuffle.SHUFFLE_RANDOM
      (Shuffle.set_random_seed seed) = .ok (s2, r2)) :
    ∀ i : Int, s1.get_key_index i = s2.get_key_index i := by
  have e1 := create_random_mapping k1 _ s1 r1 h1
  have e2 := create_random_mapping k2 _ s2 r2 h2
  have hm : s1.shuffle_index_to_key_index = s2.shuffle_index_to_key_index := by
    rw [e1, e2, hsz]
  intro i
  unfold Shuffle.get_key_index Shuffle.indexInMapping
  simp only [hm]

theorem random_reproducibility_witness :
    Shuffle.get_key_index
        ⟨⟨[false, false, false, false, false]⟩, [2, 3, 1, 4, 0]⟩ 3 =
      Shuffle.get_key_index
        ⟨⟨[true, true, true, true, true]⟩, [2, 3, 1, 4, 0]⟩ 3 :=
  random_reproducibility 42 ⟨[false, false, false, false, false]⟩
    ⟨[true, true, true, true, true]⟩ (by rfl)
    ⟨⟨[false, false, false, false, false]⟩, [2, 3, 1, 4, 0]⟩
    ⟨⟨[true, true, true, true, true]⟩, [2, 3, 1, 4, 0]⟩
    ⟨3816158454⟩ ⟨3816158454⟩ (by rfl) (by rfl) 3

/-- Claim C2: writing a bit through a shuffle position and reading it back
through the same shuffle position returns the value written, for any valid
position and any value in {0, 1}. -/
theorem set_get_roundtrip (k : Key) (alg : Int) (rng : Rng) (s : Shuffle)
    (r' : Rng) (h : Shuffle.create (some k) alg rng = .ok (s, r'))
    (i v : Int) (h0 : 0 ≤ i) (hi : i.toNat < s.size) (hv : v = 0 ∨ v = 1) :
    (s.set_bit i v).bind (fun t => t.get_bit i) = .ok v.toNat := by
  have hlen := create_mapping_length k alg rng s r' h
  have hmem : s.indexInMapping i := by
    unfold Shuffle.indexInMapping
    omega
  have hkidx : s.shuffle_index_to_key_index.getD i.toNat 0 < s.key.size :=
    create_entry_getD_lt k alg rng s r' h i h0 hi
  have hvn : v.toNat = 0 ∨ v.toNat = 1 := by
    rcases hv with hh | hh <;> subst hh <;> simp
  have hks : s.key.set_bit (s.shuffle_index_to_key_index.getD i.toNat 0) v.toNat
      = .ok ⟨s.key.bits.set (s.shuffle_index_to_key_index.getD i.toNat 0)
          (v.toNat == 1)⟩ := by
    unfold Key.set_bit
    rw [if_pos hkidx, if_pos hvn]
  have hss : s.set_bit i v
      = .ok ⟨⟨s.key.bits.set (s.shuffle_index_to_key_index.getD i.toNat 0)
          (v.toNat == 1)⟩, s.shuffle_index_to_key_index⟩ := by
    unfold Shuffle.set_bit
    rw [if_pos hmem, if_pos hv, hks]
  rw [hss]
  have hmem2 : Shuffle.indexInMapping
      ⟨⟨s.key.bits.set (s.shuffle_index_to_key_index.getD i.toNat 0)
        (v.toNat == 1)⟩, s.shuffle_index_to_key_index⟩ i := hmem
  have hgb : Shuffle.get_bit
      ⟨⟨s.key.bits.set (s.shuffle_index_to_key_index.getD i.toNat 0)
        (v.toNat == 1)⟩, s.shuffle_index_to_key_index⟩ i = .ok v.toNat := by
    unfold Shuffle.get_bit
    rw [if_pos hmem2]
    unfold Key.get_bit
    rw [if_pos (by simpa [Key.size] using hkidx)]
    rw [getD_of_lt _ _ _ (by simpa [Key.size] using hkidx),
      List.getElem_set_self]
    rcases hv with hh | hh <;> subst hh <;> rfl
  exact hgb

theorem set_get_roundtrip_witness :
    (Shuffle.set_bit ⟨⟨[false, true]⟩, [0, 1]⟩ 0 1).bind
        (fun t => t.get_bit 0) = .ok 1 :=
  set_get_roundtrip ⟨[false, true]⟩ 0 ⟨0⟩ ⟨⟨[false, true]⟩, [0, 1]⟩ ⟨0⟩
    (by rfl) 0 1 (by decide) (by decide) (Or.inr rfl)

/-- Claim C5: flipping the bit at the same shuffle position twice in
succession restores the whole view, the underlying key included, to its
original state. -/
theorem flip_involution (k : Key) (alg : Int) (rng : Rng) (s : Shuffle)
    (r' : Rng) (h : Shuffle.create (some k) alg rng = .ok (s, r'))
    (i : Int) (h0 : 0 ≤ i) (hi : i.toNat < s.size) :
    (s.flip_bit i).bind (fun t => t.flip_bit i) = .ok s := by
  have hkidx : s.shuffle_index_to_key_index.getD i.toNat 0 < s.key.size :=
    create_entry_getD_lt k alg rng s r' h i h0 hi
  have hkf1 : s.key.flip_bit (s.shuffle_index_to_key_index.getD i.toNat 0)
      = .ok ⟨s.key.bits.set (s.shuffle_index_to_key_index.getD i.toNat 0)
          (!s.key.bits.getD (s.shuffle_index_to_key_index.getD i.toNat 0)
            false)⟩ := by
    unfold Key.flip_bit
    rw [if_pos hkidx]
  have hsf1 : s.flip_bit i
      = .ok ⟨⟨s.key.bits.set (s.shuffle_index_to_key_index.getD i.toNat 0)
          (!s.key.bits.getD (s.shuffle_index_to_key_index.getD i.toNat 0)
            false)⟩, s.shuffle_index_to_key_index⟩ := by
    unfold Shuffle.flip_bit
    rw [if_pos ⟨h0, hi⟩, hkf1]
  have hgd1 : (s.key.bits.set (s.shuffle_index_to_key_index.getD i.toNat 0)
        (!s.key.bits.getD (s.shuffle_index_to_key_index.getD i.toNat 0)
          false)).getD (s.shuffle_index_to_key_index.getD i.toNat 0) false
      = !s.key.bits.getD (s.shuffle_index_to_key_index.getD i.toNat 0)
          false := by
    rw [getD_of_lt _ _ _ (by simpa [Key.size] using hkidx),
      List.getElem_set_self]
  have hkf2 : Key.flip_bit
      ⟨s.key.bits.set (s.shuffle_index_to_key_index.getD i.toNat 0)
        (!s.key.bits.getD (s.shuffle_index_to_key_index.getD i.toNat 0)
          false)⟩ (s.shuffle_index_to_key_index.getD i.toNat 0)
      = .ok s.key := by
    unfold Key.flip_bit
    rw [if_pos (by simpa [Key.size] using hkidx), hgd1, Bool.not_not,
      List.set_set, set_getD_self _ _ _ hkidx]
  have hsf2 : Shuffle.flip_bit
      ⟨⟨s.key.bits.set (s.shuffle_index_to_key_index.getD i.toNat 0)
        (!s.key.bits.getD (s.shuffle_index_to_key_index.getD i.toNat 0)
          false)⟩, s.shuffle_index_to_key_index⟩ i = .ok s := by
    unfold Shuffle.flip_bit
    rw [if_pos ⟨h0, by simpa [Shuffle.size, Key.size] using hi⟩, hkf2]
  rw [hsf1]
  exact hsf2

theorem flip_involution_witness :
    (Shuffle.flip_bit ⟨⟨[true, false]⟩, [0, 1]⟩ 1).bind
        (fun t => t.flip_bit 1) = .ok ⟨⟨[true, false]⟩, [0, 1]⟩ :=
  flip_involution ⟨[true, false]⟩ 0 ⟨0⟩ ⟨⟨[true, false]⟩, [0, 1]⟩ ⟨0⟩
    (by rfl) 1 (by decide) (by decide)

/-- Claim C6: a write through shuffle position i, by set_bit or by flip_bit,
changes at most the key bit at position key_position_of(i): both operations
succeed, preserve the mapping and the key size, and leave the key bit at
every other key position unchanged. -/
theorem write_noninterference (k : Key) (alg : Int) (rng : Rng) (s : Shuffle)
    (r' : Rng) (h : Shuffle.create (some k) alg rng = .ok (s, r'))
    (i v : Int) (h0 : 0 ≤ i) (hi : i.toNat < s.size) (hv : v = 0 ∨ v = 1)
    (p : Nat) (hp : s.get_key_index i ≠ .ok p) :
    (s.set_bit i v).map (fun t => t.shuffle_index_to_key_index)
        = .ok s.shuffle_index_to_key_index ∧
      (s.flip_bit i).map (fun t => t.shuffle_index_to_key_index)
        = .ok s.shuffle_index_to_key_index ∧
      (s.set_bit i v).map (fun t => t.key.size) = .ok s.key.size ∧
      (s.flip_bit i).map (fun t => t.key.size) = .ok s.key.size ∧
      (s.set_bit i v).bind (fun t => t.key.get_bit p) = s.key.get_bit p ∧
      (s.flip_bit i).bind (fun t => t.key.get_bit p) = s.key.get_bit p := by
  have hlen := create_mapping_length k alg rng s r' h
  have hmem : s.indexInMapping i := by
    unfold Shuffle.indexInMapping
    omega
  have hkidx : s.shuffle_index_to_key_index.getD i.toNat 0 < s.key.size :=
    create_entry_getD_lt k alg rng s r' h i h0 hi
  have hgki : s.get_key_index i
      = .ok (s.shuffle_index_to_key_index.getD i.toNat 0) := by
    unfold Shuffle.get_key_index
    rw [if_pos hmem]
  have hpne : p ≠ s.shuffle_index_to_key_index.getD i.toNat 0 :=
    fun he => hp (he ▸ hgki)
  have hvn : v.toNat = 0 ∨ v.toNat = 1 := by
    rcases hv with hh | hh <;> subst hh <;> simp
  have hks : s.key.set_bit (s.shuffle_index_to_key_index.getD i.toNat 0) v.toNat
      = .ok ⟨s.key.bits.set (s.shuffle_index_to_key_index.getD i.toNat 0)
          (v.toNat == 1)⟩ := by
    unfold Key.set_bit
    rw [if_pos hkidx, if_pos hvn]
  have hss : s.set_bit i v
      = .ok ⟨⟨s.key.bits.set (s.shuffle_index_to_key_index.getD i.toNat 0)
          (v.toNat == 1)⟩, s.shuffle_index_to_key_index⟩ := by
    unfold Shuffle.set_bit
    rw [if_pos hmem, if_pos hv, hks]
  have hkf1 : s.key.flip_bit (s.shuffle_index_to_key_index.getD i.toNat 0)
      = .ok ⟨s.key.bits.set (s.shuffle_index_to_key_index.getD i.toNat 0)
          (!s.key.bits.getD (s.shuffle_index_to_key_index.getD i.toNat 0)
            false)⟩ := by
    unfold Key.flip_bit
    rw [if_pos hkidx]
  have hsf1 : s.flip_bit i
      = .ok ⟨⟨s.key.bits.set (s.shuffle_index_to_key_index.getD i.toNat 0)
          (!s.key.bits.getD (s.shuffle_index_to_key_index.getD i.toNat 0)
            false)⟩, s.shuffle_index_to_key_index⟩ := by
    unfold Shuffle.flip_bit
    rw [if_pos ⟨h0, hi⟩, hkf1]
  refine ⟨?_, ?_, ?_, ?_, ?_, ?_⟩
  · rw [hss]
    rfl
  · rw [hsf1]
    rfl
  · rw [hss]
    exact congrArg Except.ok (by simp [Key.size])
  · rw [hsf1]
    exact congrArg Except.ok (by simp [Key.size])
  · rw [hss]
    exact get_bit_set_ne s.key.bits _ _ p hpne
  · rw [hsf1]
    exact get_bit_set_ne s.key.bits _ _ p hpne

theorem write_noninterference_witness :
    (Shuffle.set_bit ⟨⟨[true, false]⟩, [0, 1]⟩ 0 1).bind
        (fun t => t.key.get_bit 1) = Key.get_bit ⟨[true, false]⟩ 1 :=
  (write_noninterference ⟨[true, false]⟩ 0 ⟨0⟩ ⟨⟨[true, false]⟩, [0, 1]⟩ ⟨0⟩
    (by rfl) 0 1 (by decide) (by decide) (Or.inr rfl) 1
    (by decide)).2.2.2.2.1

/-- Claim C7: every addressed accessor (get_bit, set_bit, flip_bit,
get_key_index) fails with an index error for any index below 0 or at least
size, and passes its range check for any index in [0, size); for an in-range
index, set_bit fails with an invalid-argument error for any value other than
0 and 1.  A failing operation returns only the error, so the key is
unchanged in every failure case. -/
theorem range_checking (k : Key) (alg : Int) (rng : Rng) (s : Shuffle)
    (r' : Rng) (h : Shuffle.create (some k) alg rng = .ok (s, r')) :
    (∀ i : Int, i < 0 ∨ (s.size : Int) ≤ i →
      s.get_bit i = .error .indexOutOfRange ∧
      s.get_key_index i = .error .indexOutOfRange ∧
      s.flip_bit i = .error .indexOutOfRange ∧
      ∀ v : Int, s.set_bit i v = .error .indexOutOfRange) ∧
    (∀ i : Int, 0 ≤ i → i < (s.size : Int) →
      (∃ b, s.get_bit i = .ok b) ∧
      (∃ q, s.get_key_index i = .ok q) ∧
      (∃ t, s.flip_bit i = .ok t) ∧
      (∃ t, s.set_bit i 0 = .ok t) ∧
      ∀ v : Int, ¬(v = 0 ∨ v = 1) →
        s.set_bit i v = .error .invalidArgument) := by
  have hlen := create_mapping_length k alg rng s r' h
  constructor
  · intro i hout
    have hnmem : ¬ s.indexInMapping i := by
      unfold Shuffle.indexInMapping
      omega
    refine ⟨?_, ?_, ?_, ?_⟩
    · unfold Shuffle.get_bit
      rw [if_neg hnmem]
    · unfold Shuffle.get_key_index
      rw [if_neg hnmem]
    · unfold Shuffle.flip_bit
      rw [if_neg (by omega : ¬(0 ≤ i ∧ i.toNat < s.size))]
    · intro v
      unfold Shuffle.set_bit
      rw [if_neg hnmem]
  · intro i h0 hilt
    have hi : i.toNat < s.size := by omega
    have hmem : s.indexInMapping i := by
      unfold Shuffle.indexInMapping
      omega
    have hkidx : s.shuffle_index_to_key_index.getD i.toNat 0 < s.key.size :=
      create_entry_getD_lt k alg rng s r' h i h0 hi
    refine ⟨?_, ?_, ?_, ?_, ?_⟩
    · refine ⟨cond (s.key.bits.getD
        (s.shuffle_index_to_key_index.getD i.toNat 0) false) 1 0, ?_⟩
      unfold Shuffle.get_bit
      rw [if_pos hmem]
      unfold Key.get_bit
      rw [if_pos hkidx]
    · refine ⟨s.shuffle_index_to_key_index.getD i.toNat 0, ?_⟩
      unfold Shuffle.get_key_index
      rw [if_pos hmem]
    · refine ⟨⟨⟨s.key.bits.set (s.shuffle_index_to_key_index.getD i.toNat 0)
        (!s.key.bits.getD (s.shuffle_index_to_key_index.getD i.toNat 0)
          false)⟩, s.shuffle_index_to_key_index⟩, ?_⟩
      unfold Shuffle.flip_bit
      rw [if_pos ⟨h0, hi⟩,
        (by
          unfold Key.flip_bit
          rw [if_pos hkidx] :
          s.key.flip_bit (s.shuffle_index_to_key_index.getD i.toNat 0)
            = .ok ⟨s.key.bits.set
                (s.shuffle_index_to_key_index.getD i.toNat 0)
                (!s.key.bits.getD
                  (s.shuffle_index_to_key_index.getD i.toNat 0) false)⟩)]
    · refine ⟨⟨⟨s.key.bits.set (s.shuffle_index_to_key_index.getD i.toNat 0)
        ((0 : Int).toNat == 1)⟩, s.shuffle_index_to_key_index⟩, ?_⟩
      unfold Shuffle.set_bit
      rw [if_pos hmem, if_pos (Or.inl rfl),
        (by
          unfold Key.set_bit
          rw [if_pos hkidx,
            if_pos (by decide :
              (0 : Int).toNat = 0 ∨ (0 : Int).toNat = 1)] :
          s.key.set_bit (s.shuffle_index_to_key_index.getD i.toNat 0)
              (0 : Int).toNat
            = .ok ⟨s.key.bits.set
                (s.shuffle_index_to_key_index.getD i.toNat 0)
                ((0 : Int).toNat == 1)⟩)]
    · intro v hv
      unfold Shuffle.set_bit
      rw [if_pos hmem, if_neg hv]

theorem range_checking_witness :
    Shuffle.get_bit ⟨⟨[true, false]⟩, [0, 1]⟩ (-1)
      = .error .indexOutOfRange :=
  ((range_checking ⟨[true, false]⟩ 0 ⟨0⟩ ⟨⟨[true, false]⟩, [0, 1]⟩ ⟨0⟩
    (by rfl)).1 (-1) (by decide)).1

end BB84
